import Mathlib

/-!
Shallow embedding of the layered procedural-generation engine
(`layer-proc-gen`): integer plane geometry, the rolling-grid chunk cache,
the generic layer loader (`ensure_loaded_in_bounds`), the reduced-points
layer and the relative-neighborhood-graph roads layer, together with
theorems settling the specification claims.

Sources embedded: `src/lib.rs` (layer runtime), `src/generic_layers/
reduced_points.rs` (point reduction), `examples/infinite_roads.rs`
(locations / reduced locations / roads chunks).  The repository modules
`vec2.rs` and `rolling_grid.rs` are declared but their code is not in the
sources; definitions taken from the written specification instead are
marked `Modelled from the spec:`.
-/

namespace LayerProcGen

/-- 2D point of signed 64-bit world coordinates (`vec2::Point2d`).
Coordinates are modelled as unbounded integers: the spec declares all
coordinate arithmetic checked, so no wrap-around behaviour is observable. -/
structure Point2d where
  x : Int
  y : Int
deriving DecidableEq, Repr

instance : Add Point2d := ⟨fun a b => ⟨a.x + b.x, a.y + b.y⟩⟩
instance : Sub Point2d := ⟨fun a b => ⟨a.x - b.x, a.y - b.y⟩⟩
instance : Mul Point2d := ⟨fun a b => ⟨a.x * b.x, a.y * b.y⟩⟩

@[simp] theorem Point2d.add_x (a b : Point2d) : (a + b).x = a.x + b.x := rfl
@[simp] theorem Point2d.add_y (a b : Point2d) : (a + b).y = a.y + b.y := rfl
@[simp] theorem Point2d.sub_x (a b : Point2d) : (a - b).x = a.x - b.x := rfl
@[simp] theorem Point2d.sub_y (a b : Point2d) : (a - b).y = a.y - b.y := rfl
@[simp] theorem Point2d.mul_x (a b : Point2d) : (a * b).x = a.x * b.x := rfl
@[simp] theorem Point2d.mul_y (a b : Point2d) : (a * b).y = a.y * b.y := rfl

/-- Embeds `Point2d::splat` -/
def Point2d.splat (v : Int) : Point2d := ⟨v, v⟩

@[simp] theorem Point2d.splat_x (v : Int) : (Point2d.splat v).x = v := rfl
@[simp] theorem Point2d.splat_y (v : Int) : (Point2d.splat v).y = v := rfl

theorem Point2d.ext_xy {a b : Point2d} (hx : a.x = b.x) (hy : a.y = b.y) :
    a = b := by
  cases a; cases b; simp_all

/-- Embeds `Point2d::dist_squared` — squared Euclidean distance.
Modelled from the spec: `vec2.rs` is not among the sources; the spec's
road algorithm (§4.6) defines `d²` as squared Euclidean distance. -/
def Point2d.distSquared (a b : Point2d) : Int :=
  (a.x - b.x) * (a.x - b.x) + (a.y - b.y) * (a.y - b.y)

/-- Embeds `Point2d::manhattan_dist`.
Modelled from the spec: `vec2.rs` is not among the sources; §4.5 gates
reduction on the Manhattan distance between positions. -/
def Point2d.manhattanDist (a b : Point2d) : Int :=
  (a.x - b.x).natAbs + (a.y - b.y).natAbs

/-- Lexicographic comparison of points, `x` before `y`.
Modelled from the spec: `Point2d`'s `Ord` is not among the sources; §4.5
compares positions by `(position.x, position.y)` lexicographically. -/
def Point2d.lexLt (a b : Point2d) : Bool :=
  a.x < b.x || (a.x = b.x && a.y < b.y)

/-- Half-open axis-aligned rectangle `[min, max)` (`vec2::Bounds`). -/
structure Bounds where
  bmin : Point2d
  bmax : Point2d
deriving DecidableEq, Repr

/-- Embeds `Bounds::point` — the 1×1 rectangle at `p`.
Modelled from the spec: §4.3 "when a region's min==max on any axis (a
point), it is treated as the 1×1 rectangle `[min, min+1)`". -/
def Bounds.point (p : Point2d) : Bounds := ⟨p, p + Point2d.splat 1⟩

/-- Embeds `Bounds::pad` — grow the rectangle by `p` world units on every side.
Modelled from the spec: §4.4, padding extends the region symmetrically. -/
def Bounds.pad (b : Bounds) (p : Point2d) : Bounds := ⟨b.bmin - p, b.bmax + p⟩

/-- Embeds `Bounds::center`.
Modelled from the spec: §4.3 sorts "by squared distance from the center of
`region`"; the center of an integer rectangle is `(min + max) / 2`
(componentwise Euclidean division). -/
def Bounds.center (b : Bounds) : Point2d :=
  ⟨(b.bmin.x + b.bmax.x).ediv 2, (b.bmin.y + b.bmax.y).ediv 2⟩

/-- Membership of a point in half-open bounds. -/
def Bounds.containsPoint (b : Bounds) (p : Point2d) : Prop :=
  b.bmin.x ≤ p.x ∧ p.x < b.bmax.x ∧ b.bmin.y ≤ p.y ∧ p.y < b.bmax.y

instance (b : Bounds) (p : Point2d) : Decidable (b.containsPoint p) := by
  unfold Bounds.containsPoint; infer_instance

/-- The inclusive list of integers `lo, lo+1, ..., hi` (empty if `hi < lo`). -/
def intRangeList (lo hi : Int) : List Int :=
  (List.range (hi + 1 - lo).toNat).map (fun k : Nat => lo + (k : Int))

/-- The chunk indices whose world bounds intersect `b`, for chunks of world
size `size`, enumerated with `x` as the outer axis.
Modelled from the spec: `Bounds / Point2d` division lives in the missing
`vec2.rs`; §4.3 says "chunk indices are derived by Euclidean division of
coordinates by `SIZE`" and "a chunk is in a region iff their intersection
is non-empty", with ties in the load order broken by `(x, y)`
lexicographically (hence `x`-major enumeration). -/
def boundsToIndices (size : Point2d) (b : Bounds) : List Point2d :=
  if b.bmin.x < b.bmax.x ∧ b.bmin.y < b.bmax.y then
    (intRangeList (b.bmin.x.ediv size.x) ((b.bmax.x - 1).ediv size.x)).flatMap
      fun ix =>
        (intRangeList (b.bmin.y.ediv size.y) ((b.bmax.y - 1).ediv size.y)).map
          fun iy => ⟨ix, iy⟩
  else []

/-- Embeds `Chunk::bounds` (`src/lib.rs`): the world region of chunk `index` is
`[index * SIZE, (index + 1) * SIZE)`. -/
def chunkBounds (size : Point2d) (index : Point2d) : Bounds :=
  ⟨index * size, index * size + size⟩

/-- All lattice points of half-open bounds `b`, `x`-major.
Modelled from the spec: iteration over a rectangle of chunk-index space
(`rolling_grid.rs` is not among the sources). -/
def latticePoints (b : Bounds) : List Point2d :=
  if b.bmin.x < b.bmax.x ∧ b.bmin.y < b.bmax.y then
    (intRangeList b.bmin.x (b.bmax.x - 1)).flatMap fun px =>
      (intRangeList b.bmin.y (b.bmax.y - 1)).map fun py => ⟨px, py⟩
  else []

/-! ### Deterministic seeding (`examples/infinite_roads.rs`, `LocationsChunk`)

`LocationsChunk::compute` seeds two `SmallRng`s from the chunk index's `x`
and `y` coordinates, concatenates their byte output into a 32-byte seed,
and draws three points inside the chunk bounds.  `SmallRng` (the `rand`
crate, 64-bit platforms) is Xoshiro256++ with SplitMix64 seed expansion;
it is embedded below on `Nat` with explicit reduction modulo `2^64`. -/

/-- 64-bit wrap-around. -/
def wrap64 (n : Nat) : Nat := n % (2 ^ 64)

/-- Embeds `u64::rotate_left`. -/
def rotl64 (x k : Nat) : Nat :=
  wrap64 ((x <<< k) ||| (x >>> (64 - k)))

/-- One SplitMix64 draw: next state and output word. -/
def splitmix64 (s : Nat) : Nat × Nat :=
  let s := wrap64 (s + 0x9e3779b97f4a7c15)
  let z := s
  let z := wrap64 ((z ^^^ (z >>> 30)) * 0xbf58476d1ce4e5b9)
  let z := wrap64 ((z ^^^ (z >>> 27)) * 0x94d049bb133111eb)
  let z := z ^^^ (z >>> 31)
  (s, z)

/-- Xoshiro256++ generator state: four 64-bit words. -/
structure SmallRng where
  s0 : Nat
  s1 : Nat
  s2 : Nat
  s3 : Nat
deriving DecidableEq, Repr

/-- One Xoshiro256++ step: output word and next state. -/
def SmallRng.next (r : SmallRng) : Nat × SmallRng :=
  let result := wrap64 (rotl64 (wrap64 (r.s0 + r.s3)) 23 + r.s0)
  let t := wrap64 (r.s1 <<< 17)
  let s2 := r.s2 ^^^ r.s0
  let s3 := r.s3 ^^^ r.s1
  let s1 := r.s1 ^^^ s2
  let s0 := r.s0 ^^^ s3
  let s2 := s2 ^^^ t
  let s3 := rotl64 s3 45
  (result, ⟨s0, s1, s2, s3⟩)

/-- Embeds `SmallRng::seed_from_u64`: SplitMix64 expansion of a 64-bit seed into
the four state words. -/
def SmallRng.seedFromU64 (u : Nat) : SmallRng :=
  let (st, w0) := splitmix64 (wrap64 u)
  let (st, w1) := splitmix64 st
  let (st, w2) := splitmix64 st
  let (_, w3) := splitmix64 st
  ⟨w0, w1, w2, w3⟩

/-- Embeds `SmallRng::from_seed` on a 32-byte seed, given here as the four
little-endian 64-bit words; an all-zero seed falls back to
`seed_from_u64(0)`. -/
def SmallRng.fromSeedWords (w0 w1 w2 w3 : Nat) : SmallRng :=
  if w0 = 0 ∧ w1 = 0 ∧ w2 = 0 ∧ w3 = 0 then SmallRng.seedFromU64 0
  else ⟨w0, w1, w2, w3⟩

/-- Embeds `i64 as u64`: two's-complement reinterpretation. -/
def i64AsU64 (x : Int) : Nat := (x.emod (2 ^ 64)).toNat

/-- Embeds `Bounds::sample(rng)` — draw a point uniformly inside the bounds.
Modelled from the spec: `vec2.rs` is not among the sources; §4.2 says
consumers sample `[min.x, max.x)` then `[min.y, max.y)` with the seeded
generator, the draw order (`x` first) being part of the contract. -/
def Bounds.sample (b : Bounds) (r : SmallRng) : Point2d × SmallRng :=
  let (rx, r) := r.next
  let (ry, r) := r.next
  let wx := (b.bmax.x - b.bmin.x).toNat
  let wy := (b.bmax.y - b.bmin.y).toNat
  (⟨b.bmin.x + (rx % wx : Nat), b.bmin.y + (ry % wy : Nat)⟩, r)

/-- Embeds `LocationsChunk` (`examples/infinite_roads.rs`): three points. -/
structure LocationsChunk where
  points : List Point2d
deriving DecidableEq, Repr

/-- The `Locations` layer state: it owns only its rolling grid
(`struct Locations(RollingGrid<Self>)`), here an association list of
stored chunks; `compute` never reads it. -/
structure LocationsState where
  grid : List (Point2d × LocationsChunk)

/-- Embeds `LocationsChunk::SIZE` — the default chunk size `(256, 256)`. -/
def locationsSize : Point2d := ⟨256, 256⟩

/-- Embeds `LocationsChunk::compute` (`examples/infinite_roads.rs` lines 37–54):
seed two `SmallRng`s from `index.x` and `index.y`, fill a 32-byte seed
from their outputs (two little-endian `u64`s each), reseed, and sample
three points inside the chunk bounds.  The layer argument is unused. -/
def LocationsChunk.compute (_layer : LocationsState) (index : Point2d) :
    LocationsChunk :=
  let chunkBnds := chunkBounds locationsSize index
  let x := SmallRng.seedFromU64 (i64AsU64 index.x)
  let y := SmallRng.seedFromU64 (i64AsU64 index.y)
  let (w0, x) := x.next
  let (w1, _) := x.next
  let (w2, y) := y.next
  let (w3, _) := y.next
  let rng := SmallRng.fromSeedWords w0 w1 w2 w3
  let (p0, rng) := chunkBnds.sample rng
  let (p1, rng) := chunkBnds.sample rng
  let (p2, _) := chunkBnds.sample rng
  ⟨[p0, p1, p2]⟩

/-! ### Rolling grid cache

Modelled from the spec: `rolling_grid.rs` is not among the sources.  §4.1:
slot address `slot(i) = (i.x mod W, i.y mod H)` with Euclidean modulus;
`get(i)` returns the payload iff the slot holds exactly index `i`;
`set(i, payload)` refuses (fatally) to overwrite a different index with a
positive refcount; `incref(i)` requires the slot to hold `i`.  The grid is
represented as an association list keyed by slot address (at most one
entry per address), and the fatal panics as `Option.none`. -/

/-- A stored chunk: index, payload, refcount (§3, `StoredChunk<C>`). -/
structure Stored (α : Type) where
  index : Point2d
  payload : α
  refcount : Nat
deriving DecidableEq, Repr

/-- A rolling grid: association list from slot address to stored chunk. -/
abbrev RGrid (α : Type) : Type := List (Point2d × Stored α)

/-- Euclidean-modulus slot address for index `i` in a `w × h` ring. -/
def slotOf (w h : Int) (i : Point2d) : Point2d := ⟨i.x.emod w, i.y.emod h⟩

/-- Look up the entry stored at slot address `s`. -/
def lookupSlot {α : Type} (g : RGrid α) (s : Point2d) : Option (Stored α) :=
  match g with
  | [] => none
  | (s', st) :: rest => if s' = s then some st else lookupSlot rest s

/-- Replace (or insert) the entry at slot address `s`. -/
def writeSlot {α : Type} (g : RGrid α) (s : Point2d) (st : Stored α) :
    RGrid α :=
  match g with
  | [] => [(s, st)]
  | (s', st') :: rest =>
    if s' = s then (s, st) :: rest else (s', st') :: writeSlot rest s st

/-- The full entry the ring currently associates with index `i` (if the
slot holds exactly `i`). -/
def rgEntry {α : Type} (w h : Int) (g : RGrid α) (i : Point2d) :
    Option (Stored α) :=
  match lookupSlot g (slotOf w h i) with
  | some st => if st.index = i then some st else none
  | none => none

/-- Embeds `RollingGrid::get`. -/
def rgGet {α : Type} (w h : Int) (g : RGrid α) (i : Point2d) : Option α :=
  (rgEntry w h g i).map Stored.payload

/-- Embeds `RollingGrid::set` with refcount 1 (§4.3 step 2); `none` is the fatal
ring-overflow panic: the slot is occupied by a different index whose
refcount is positive. -/
def rgSet {α : Type} (w h : Int) (g : RGrid α) (i : Point2d) (p : α) :
    Option (RGrid α) :=
  match lookupSlot g (slotOf w h i) with
  | none => some (writeSlot g (slotOf w h i) ⟨i, p, 1⟩)
  | some st =>
    if st.index = i then some (writeSlot g (slotOf w h i) ⟨i, p, 1⟩)
    else if st.refcount = 0 then some (writeSlot g (slotOf w h i) ⟨i, p, 1⟩)
    else none

/-- Embeds `RollingGrid::increment_user_count`; `none` if the slot does not hold
index `i`. -/
def rgIncref {α : Type} (w h : Int) (g : RGrid α) (i : Point2d) :
    Option (RGrid α) :=
  match lookupSlot g (slotOf w h i) with
  | some st =>
    if st.index = i then
      some (writeSlot g (slotOf w h i) ⟨i, st.payload, st.refcount + 1⟩)
    else none
  | none => none

/-! ### Center-out load order (`src/lib.rs`, `Layer::ensure_loaded_in_bounds`)

`ensure_loaded_in_bounds` collects the chunk indices of the requested
bounds and sorts them with `sort_by_cached_key` (a stable sort) by
`(index * SIZE).dist_squared(bounds.center())`.  The stable sort is
embedded as insertion sort, stable by construction. -/

/-- Stable insertion of `x` in front of every element of equal or larger
key (the elements of the sorted tail all came after `x` in the input). -/
def stableInsert (key : Point2d → Int) (x : Point2d) :
    List Point2d → List Point2d
  | [] => [x]
  | y :: ys =>
    if key y < key x then y :: stableInsert key x ys else x :: y :: ys

/-- Stable sort by key (insertion sort), the behaviour of Rust's stable
`sort_by_cached_key`. -/
def stableSortByKey (key : Point2d → Int) : List Point2d → List Point2d
  | [] => []
  | x :: xs => stableInsert key x (stableSortByKey key xs)

/-- The sort key of `Layer::ensure_loaded_in_bounds` (`src/lib.rs` line
42): squared distance from `index * SIZE` to the center of the requested
bounds. -/
def loadKey (size : Point2d) (bounds : Bounds) (index : Point2d) : Int :=
  (index * size).distSquared bounds.center

/-- The order in which `Layer::ensure_loaded_in_bounds` materializes the
chunks of `bounds` (`src/lib.rs` lines 36–46). -/
def loadOrder (size : Point2d) (bounds : Bounds) : List Point2d :=
  stableSortByKey (loadKey size bounds) (boundsToIndices size bounds)

/-! ### Layer runtime (`src/lib.rs` lines 36–69)

The runtime is embedded for a two-layer DAG: a producer layer `A` with no
dependencies and a consumer layer `B` holding a `LayerDependency` on `A`
with padding `pad` — the shape of `Locations` / `ReducedLocations` in the
example.  `compute` of `A` is a pure function of the index; `compute` of
`B` reads `A`'s rolling grid through the dependency handle.  The fatal
panics of the rolling grid propagate as `Option.none`. -/

/-- Combined state of the two-layer DAG: one rolling grid per layer. -/
structure DagState (α β : Type) where
  gridA : RGrid α
  gridB : RGrid β
deriving DecidableEq, Repr

section LayerRuntime

variable {α β : Type}
variable (sizeA sizeB : Point2d) (wA hA wB hB : Int) (pad : Point2d)
variable (computeA : Point2d → α)
variable (computeB : (Point2d → Option α) → Point2d → β)

/-- Embeds `Layer::create_and_register_chunk` for the dependency-free layer `A`
(`src/lib.rs` lines 49–60): `ensure_chunk_providers` is a no-op; if the
chunk is resident increment its user count, else compute and store it. -/
def createA (s : DagState α β) (i : Point2d) : Option (DagState α β) :=
  match rgGet wA hA s.gridA i with
  | some _ => (rgIncref wA hA s.gridA i).map fun g => { s with gridA := g }
  | none =>
    (rgSet wA hA s.gridA i (computeA i)).map fun g => { s with gridA := g }

/-- Embeds `Layer::ensure_loaded_in_bounds` for layer `A` (`src/lib.rs` lines
36–46): chunk indices of the bounds, sorted center-out, each loaded by
`create_and_register_chunk`. -/
def ensureA (bounds : Bounds) (s : DagState α β) : Option (DagState α β) :=
  (loadOrder sizeA bounds).foldlM (createA wA hA computeA) s

/-- The padded producer region of consumer chunk `i`
(`LayerDependency::ensure_loaded_in_bounds`, `src/lib.rs` lines 82–85). -/
def padBoundsB (i : Point2d) : Bounds := (chunkBounds sizeB i).pad pad

/-- The producer chunk indices covering the padded region of consumer
chunk `i`. -/
def padIndicesB (i : Point2d) : List Point2d :=
  boundsToIndices sizeA (padBoundsB sizeB pad i)

/-- Embeds `Layer::create_and_register_chunk` for the consumer layer `B`: first
`ensure_chunk_providers` (the dependency loads its padded region), then
load the chunk itself, computing it from `A`'s grid on a miss. -/
def createB (s : DagState α β) (i : Point2d) : Option (DagState α β) :=
  (ensureA sizeA wA hA computeA (padBoundsB sizeB pad i) s).bind fun s1 =>
    match rgGet wB hB s1.gridB i with
    | some _ => (rgIncref wB hB s1.gridB i).map fun g => { s1 with gridB := g }
    | none =>
      (rgSet wB hB s1.gridB i (computeB (rgGet wA hA s1.gridA) i)).map
        fun g => { s1 with gridB := g }

/-- Embeds `Layer::ensure_loaded_in_bounds` for the consumer layer `B`. -/
def ensureB (bounds : Bounds) (s : DagState α β) : Option (DagState α β) :=
  (loadOrder sizeB bounds).foldlM
    (createB sizeA sizeB wA hA wB hB pad computeA computeB) s

/-- The canonical payload of consumer chunk `i`: `compute` evaluated
against fully materialized (deterministic) dependency contents. -/
def canonB (i : Point2d) : β := computeB (fun j => some (computeA j)) i

/-- A freshly constructed DAG: both rolling grids empty. -/
def emptyDag : DagState α β := ⟨[], []⟩

end LayerRuntime

/-- Index `i` is resident in the ring with payload `p` and a positive
refcount. -/
def liveAt {γ : Type} (w h : Int) (g : RGrid γ) (i : Point2d) (p : γ) :
    Prop :=
  ∃ rc, 1 ≤ rc ∧ rgEntry w h g i = some ⟨i, p, rc⟩

/-- Every payload resident in the ring is the canonical one given by `f`. -/
def coherentGrid {γ : Type} (w h : Int) (g : RGrid γ) (f : Point2d → γ) :
    Prop :=
  ∀ j p, rgGet w h g j = some p → p = f j

/-! ### Generic reduced-points layer
(`src/generic_layers/reduced_points.rs` lines 66–96)

`ReducedUniformPoint::compute` is generic over a `Reducible` point type
`P`; the embedding carries the `Reducible` interface (`position`,
`radius`, `priority`, `max_radius`) as function parameters and the
upstream `UniformPoint` layer as its deterministic chunk contents
`u : index → points` (the dependency's chunks are themselves
deterministic, and padding adequacy keeps them resident during
`compute`). -/

section ReducedPoints

variable {P : Type} [DecidableEq P]
variable (pos : P → Point2d) (radius : P → Int) (priority : P → Int)
variable (maxRadius : Int) (u : Point2d → List P) (size : Point2d)

/-- Embeds `p.priority().cmp(&other.priority()).then_with(|| p.position().cmp(&other.position())).is_lt()`:
`p` is strictly lower than `q` in the lexicographic order
`(priority, position.x, position.y)`. -/
def lowerPriority (p q : P) : Bool :=
  priority p < priority q ||
    (priority p = priority q && (pos p).lexLt (pos q))

/-- The region scanned for conflicting points:
`Bounds::point(p.position()).pad(Point2d::splat(p.radius() + max_radius))`. -/
def scanBounds (p : P) : Bounds :=
  (Bounds.point (pos p)).pad (Point2d.splat (radius p + maxRadius))

/-- The inner-loop test of `ReducedUniformPoint::compute`: candidate `p`
is skipped because of `q` when `q` is a different point whose center is
within the summed radii (Manhattan) and `p` has lower priority. -/
def rejects (p q : P) : Bool :=
  !(q = p : Bool) &&
    decide ((pos q).manhattanDist (pos p) < radius p + radius q) &&
    lowerPriority pos priority p q

/-- The `'points` loop body: `p` survives iff no point of any upstream
chunk intersecting the scanned region rejects it. -/
def keepPoint (p : P) : Bool :=
  !(boundsToIndices size (scanBounds pos radius maxRadius p)).any fun j =>
    (u j).any fun q => rejects pos radius priority p q

/-- Embeds `ReducedUniformPoint::compute`: filter the upstream chunk at the same
index, pushing survivors into an `ArrayVec<P, 7>`; `none` is the panic of
pushing an eighth survivor. -/
def reducedCompute (i : Point2d) : Option (List P) :=
  let points := (u i).filter
    (keepPoint pos radius priority maxRadius u size)
  if points.length ≤ 7 then some points else none

end ReducedPoints

/-! ### `ReducedLocationsChunk` (`examples/infinite_roads.rs` lines 79–103)

The example's own reducer: no priorities — a location is dropped as soon
as any other location within squared Euclidean distance `100²` exists in
the scanned range `[p, p + 100)`. -/

/-- Embeds `ReducedLocationsChunk::compute`'s survivor test for candidate `p` of
the chunk at `index`, with `u` the deterministic `Locations` contents:
scan the chunks intersecting `Bounds { min: p, max: p + 100 }`. -/
def reducedLocationsKeep (u : Point2d → List Point2d) (p : Point2d) :
    Bool :=
  !(boundsToIndices locationsSize ⟨p, p + Point2d.splat 100⟩).any fun j =>
    (u j).any fun q => !(q = p : Bool) && decide (q.distSquared p < 100 * 100)

/-- Embeds `ReducedLocationsChunk::compute` (`examples/infinite_roads.rs` lines
83–103): filter the raw locations of the chunk, capacity 3. -/
def reducedLocationsCompute (u : Point2d → List Point2d) (i : Point2d) :
    Option (List Point2d) :=
  let points := (u i).filter (reducedLocationsKeep u)
  if points.length ≤ 3 then some points else none

/-! ### Roads layer (`examples/infinite_roads.rs` lines 128–179) -/

/-- Embeds `vec2::Line`: a road segment. -/
structure Line where
  lstart : Point2d
  lend : Point2d
deriving DecidableEq, Repr

/-- Embeds `Point2d::to` — the segment from `a` to `b`. -/
def Point2d.to (a b : Point2d) : Line := ⟨a, b⟩

/-- Embeds `usize::MAX`, the sentinel left in `start`/`n` when fewer than five
chunks are yielded by the grid-range iteration. -/
def USIZE_MAX : Nat := 2 ^ 64 - 1

/-- The 3×3 window of chunk indices scanned by `RoadsChunk::compute`:
`Bounds::point(index).pad(Point2d::splat(1))` in chunk-index space. -/
def roadsWindow (index : Point2d) : List Point2d :=
  latticePoints ((Bounds.point index).pad (Point2d.splat 1))

/-- The gathering loop of `RoadsChunk::compute`: enumerate the yielded
chunks, record the offset and length of the fifth one (`i == 4`), and
extend an `ArrayVec<Point2d, 27>` with each chunk's points; `none` is the
panic of exceeding the capacity. -/
def gatherGo (k : Nat) (pts : List Point2d) (start n : Nat) :
    List (List Point2d) → Option (List Point2d × Nat × Nat)
  | [] => some (pts, start, n)
  | c :: cs =>
    let start' := if k = 4 then pts.length else start
    let n' := if k = 4 then c.length else n
    let pts' := pts ++ c
    if 27 < pts'.length then none else gatherGo (k + 1) pts' start' n' cs

/-- The relative-neighborhood test of `RoadsChunk::compute`: keep segment
`(a, b)` iff every `c` of the gathered points equals `a` or `b` or is
strictly farther from one endpoint than the endpoints are from each
other. -/
def rngKeep (pts : List Point2d) (a b : Point2d) : Bool :=
  pts.all fun c =>
    (a = c : Bool) || (b = c : Bool) ||
      decide (a.distSquared b < a.distSquared c) ||
      decide (a.distSquared b < c.distSquared b)

/-- The segment loops of `RoadsChunk::compute`: `a` ranges over the
center-chunk slice `enumerate().skip(start).take(n)`, `b` over the points
after `a`. -/
def roadsFrom (pts : List Point2d) (start n : Nat) : List Line :=
  ((pts.enum.drop start).take n).flatMap fun ia =>
    (pts.drop (ia.1 + 1)).filterMap fun b =>
      if rngKeep pts ia.2 b then some (ia.2.to b) else none

/-- Embeds `RoadsChunk`: the computed road segments. -/
structure RoadsChunk where
  roads : List Line
deriving DecidableEq, Repr

/-- Embeds `RoadsChunk::compute` (`examples/infinite_roads.rs` lines 132–178):
`g` is the dependency's rolling grid as seen through `get_grid_range`,
which silently skips chunk indices that are not resident. -/
def computeRoads (g : Point2d → Option (List Point2d)) (index : Point2d) :
    Option RoadsChunk :=
  (gatherGo 0 [] USIZE_MAX USIZE_MAX ((roadsWindow index).filterMap g)).map
    fun r => ⟨roadsFrom r.1 r.2.1 r.2.2⟩

/-! ### Rolling grid lemmas -/

theorem lookupSlot_writeSlot {α : Type} (g : RGrid α) (s s' : Point2d)
    (st : Stored α) :
    lookupSlot (writeSlot g s st) s' =
      if s' = s then some st else lookupSlot g s' := by
  induction g with
  | nil =>
    by_cases h : s = s'
    · subst h; simp [writeSlot, lookupSlot]
    · simp [writeSlot, lookupSlot, h, Ne.symm h]
  | cons a rest ih =>
    obtain ⟨s₀, st₀⟩ := a
    by_cases h₀ : s₀ = s
    · subst h₀
      by_cases h : s₀ = s'
      · subst h; simp [writeSlot, lookupSlot]
      · simp [writeSlot, lookupSlot, h, Ne.symm h]
    · by_cases h : s₀ = s'
      · subst h
        simp [writeSlot, lookupSlot, h₀, Ne.symm h₀]
      · simp [writeSlot, lookupSlot, h₀, h, ih]


theorem rgEntry_eq_lookup {γ : Type} {w h : Int} {g : RGrid γ}
    {i : Point2d} {st : Stored γ} (he : rgEntry w h g i = some st) :
    lookupSlot g (slotOf w h i) = some st ∧ st.index = i := by
  unfold rgEntry at he
  cases hlu : lookupSlot g (slotOf w h i) with
  | none => rw [hlu] at he; cases he
  | some st' =>
    rw [hlu] at he
    by_cases hidx : st'.index = i
    · simp [hidx] at he
      subst he; exact ⟨rfl, hidx⟩
    · simp [hidx] at he

theorem rgEntry_writeSlot {γ : Type} (w h : Int) (g : RGrid γ)
    (i j : Point2d) (st : Stored γ) :
    rgEntry w h (writeSlot g (slotOf w h i) st) j =
      if slotOf w h j = slotOf w h i then
        (if st.index = j then some st else none)
      else rgEntry w h g j := by
  unfold rgEntry
  rw [lookupSlot_writeSlot]
  by_cases hs : slotOf w h j = slotOf w h i <;> simp [hs]

theorem liveAt_rgGet {γ : Type} {w h : Int} {g : RGrid γ} {i : Point2d}
    {p : γ} (hl : liveAt w h g i p) : rgGet w h g i = some p := by
  obtain ⟨rc, _, he⟩ := hl
  simp [rgGet, he]

theorem rgGet_eq_some {γ : Type} {w h : Int} {g : RGrid γ} {i : Point2d}
    {p : γ} (hg : rgGet w h g i = some p) :
    ∃ rc, rgEntry w h g i = some ⟨i, p, rc⟩ := by
  unfold rgGet at hg
  cases he : rgEntry w h g i with
  | none => rw [he] at hg; cases hg
  | some st =>
    rw [he] at hg
    obtain ⟨_, hidx⟩ := rgEntry_eq_lookup he
    cases hg
    refine ⟨st.refcount, ?_⟩
    cases st
    simp_all

theorem rgSet_eq_some {γ : Type} {w h : Int} {g g' : RGrid γ}
    {i : Point2d} {p : γ} (hs : rgSet w h g i p = some g') :
    g' = writeSlot g (slotOf w h i) ⟨i, p, 1⟩ := by
  unfold rgSet at hs
  cases hlu : lookupSlot g (slotOf w h i) with
  | none => rw [hlu] at hs; exact (Option.some.inj hs).symm
  | some st =>
    rw [hlu] at hs
    by_cases h1 : st.index = i
    · simp [h1] at hs; exact hs.symm
    · by_cases h2 : st.refcount = 0
      · simp [h1, h2] at hs; exact hs.symm
      · simp [h1, h2] at hs

theorem rgSet_live_self {γ : Type} {w h : Int} {g g' : RGrid γ}
    {i : Point2d} {p : γ} (hs : rgSet w h g i p = some g') :
    liveAt w h g' i p := by
  refine ⟨1, le_refl 1, ?_⟩
  rw [rgSet_eq_some hs, rgEntry_writeSlot]
  simp

theorem rgSet_preserve_live {γ : Type} {w h : Int} {g g' : RGrid γ}
    {i j : Point2d} {p q : γ} (hs : rgSet w h g i p = some g')
    (hl : liveAt w h g j q) (hne : j ≠ i) : liveAt w h g' j q := by
  obtain ⟨rc, hrc, he⟩ := hl
  by_cases hslot : slotOf w h j = slotOf w h i
  · exfalso
    obtain ⟨hlu, _⟩ := rgEntry_eq_lookup he
    rw [hslot] at hlu
    unfold rgSet at hs
    rw [hlu] at hs
    have hrc' : rc ≠ 0 := by omega
    simp [hne, hrc'] at hs
  · refine ⟨rc, hrc, ?_⟩
    rw [rgSet_eq_some hs, rgEntry_writeSlot, if_neg hslot]
    exact he

theorem rgSet_coherent {γ : Type} {w h : Int} {g g' : RGrid γ}
    {i : Point2d} {f : Point2d → γ} (hc : coherentGrid w h g f)
    (hs : rgSet w h g i (f i) = some g') : coherentGrid w h g' f := by
  intro j p hg
  obtain ⟨rc, he⟩ := rgGet_eq_some hg
  rw [rgSet_eq_some hs, rgEntry_writeSlot] at he
  by_cases hslot : slotOf w h j = slotOf w h i
  · rw [if_pos hslot] at he
    by_cases hij : i = j
    · rw [if_pos (by simpa using hij)] at he
      cases he; rw [← hij]
    · rw [if_neg (by simpa using hij)] at he; cases he
  · rw [if_neg hslot] at he
    exact hc j p (by simp [rgGet, he])

theorem rgIncref_eq {γ : Type} {w h : Int} {g g' : RGrid γ} {i : Point2d}
    (hs : rgIncref w h g i = some g') :
    ∃ st, lookupSlot g (slotOf w h i) = some st ∧ st.index = i ∧
      g' = writeSlot g (slotOf w h i) ⟨i, st.payload, st.refcount + 1⟩ := by
  unfold rgIncref at hs
  cases hlu : lookupSlot g (slotOf w h i) with
  | none => rw [hlu] at hs; cases hs
  | some st =>
    rw [hlu] at hs
    by_cases hidx : st.index = i
    · simp [hidx] at hs
      exact ⟨st, rfl, hidx, hs.symm⟩
    · simp [hidx] at hs

theorem rgIncref_preserve_live {γ : Type} {w h : Int} {g g' : RGrid γ}
    {i j : Point2d} {q : γ} (hs : rgIncref w h g i = some g')
    (hl : liveAt w h g j q) : liveAt w h g' j q := by
  obtain ⟨rc, hrc, he⟩ := hl
  obtain ⟨st, hlu, hidx, hg'⟩ := rgIncref_eq hs
  by_cases hslot : slotOf w h j = slotOf w h i
  · obtain ⟨hlu', _⟩ := rgEntry_eq_lookup he
    rw [hslot, hlu] at hlu'
    cases hlu'
    have hij : j = i := hidx
    refine ⟨rc + 1, by omega, ?_⟩
    rw [hg', rgEntry_writeSlot, if_pos hslot, if_pos (by simp [hij])]
    simp [hij]
  · refine ⟨rc, hrc, ?_⟩
    rw [hg', rgEntry_writeSlot, if_neg hslot]
    exact he

theorem rgIncref_live_self {γ : Type} {w h : Int} {g g' : RGrid γ}
    {i : Point2d} {p : γ} (hg : rgGet w h g i = some p)
    (hs : rgIncref w h g i = some g') : liveAt w h g' i p := by
  obtain ⟨rc, he⟩ := rgGet_eq_some hg
  obtain ⟨st, hlu, hidx, hg'⟩ := rgIncref_eq hs
  obtain ⟨hlu', _⟩ := rgEntry_eq_lookup he
  rw [hlu] at hlu'
  cases hlu'
  refine ⟨rc + 1, by omega, ?_⟩
  rw [hg', rgEntry_writeSlot, if_pos rfl, if_pos (by simp)]

theorem rgIncref_coherent {γ : Type} {w h : Int} {g g' : RGrid γ}
    {i : Point2d} {f : Point2d → γ} (hc : coherentGrid w h g f)
    (hs : rgIncref w h g i = some g') : coherentGrid w h g' f := by
  obtain ⟨st, hlu, hidx, hg'⟩ := rgIncref_eq hs
  have hpay : st.payload = f i := by
    apply hc i
    simp [rgGet, rgEntry, hlu, hidx]
  intro j p hg
  obtain ⟨rc, he⟩ := rgGet_eq_some hg
  rw [hg', rgEntry_writeSlot] at he
  by_cases hslot : slotOf w h j = slotOf w h i
  · rw [if_pos hslot] at he
    by_cases hij : i = j
    · rw [if_pos (by simpa using hij)] at he
      cases he
      rw [← hij]; exact hpay
    · rw [if_neg (by simpa using hij)] at he; cases he
  · rw [if_neg hslot] at he
    exact hc j p (by simp [rgGet, he])

theorem rgIncref_of_get {γ : Type} {w h : Int} {g : RGrid γ}
    {i : Point2d} {p : γ} (hg : rgGet w h g i = some p) :
    ∃ g', rgIncref w h g i = some g' := by
  obtain ⟨rc, he⟩ := rgGet_eq_some hg
  obtain ⟨hlu, _⟩ := rgEntry_eq_lookup he
  refine ⟨writeSlot g (slotOf w h i) ⟨i, p, rc + 1⟩, ?_⟩
  unfold rgIncref
  rw [hlu]
  simp

/-! ### Sorting and index-range lemmas -/

theorem stableInsert_perm (key : Point2d → Int) (x : Point2d)
    (l : List Point2d) : (stableInsert key x l).Perm (x :: l) := by
  induction l with
  | nil => simp [stableInsert]
  | cons y ys ih =>
    simp only [stableInsert]
    by_cases hc : key y < key x
    · rw [if_pos hc]
      exact (ih.cons y).trans (List.Perm.swap x y ys)
    · rw [if_neg hc]

theorem stableSortByKey_perm (key : Point2d → Int) (l : List Point2d) :
    (stableSortByKey key l).Perm l := by
  induction l with
  | nil => simp [stableSortByKey]
  | cons x xs ih =>
    exact (stableInsert_perm key x (stableSortByKey key xs)).trans (ih.cons x)

theorem mem_stableSortByKey {key : Point2d → Int} {l : List Point2d}
    {x : Point2d} : x ∈ stableSortByKey key l ↔ x ∈ l :=
  (stableSortByKey_perm key l).mem_iff

/-- The order produced by a stable sort by `key` over an input already in
`lexLt` order: strictly smaller key first, ties in `lexLt` order. -/
def loadOrderRel (key : Point2d → Int) (a b : Point2d) : Prop :=
  key a < key b ∨ (key a = key b ∧ a.lexLt b = true)

theorem stableInsert_pairwise {key : Point2d → Int} {x : Point2d}
    {l : List Point2d} (hp : l.Pairwise (loadOrderRel key))
    (hx : ∀ y ∈ l, x.lexLt y = true) :
    (stableInsert key x l).Pairwise (loadOrderRel key) := by
  induction l with
  | nil => simp [stableInsert]
  | cons y ys ih =>
    obtain ⟨hy, hys⟩ := List.pairwise_cons.mp hp
    simp only [stableInsert]
    by_cases hc : key y < key x
    · rw [if_pos hc]
      refine List.pairwise_cons.mpr ⟨?_, ih hys fun z hz => hx z (by simp [hz])⟩
      intro z hz
      rcases List.mem_cons.mp ((stableInsert_perm key x ys).mem_iff.mp hz)
        with hz' | hz'
      · subst hz'; exact Or.inl hc
      · exact hy z hz'
    · rw [if_neg hc]
      refine List.pairwise_cons.mpr ⟨?_, hp⟩
      intro z hz
      rcases List.mem_cons.mp hz with hz' | hz'
      · subst hz'
        rcases lt_or_eq_of_le (not_lt.mp hc) with h | h
        · exact Or.inl h
        · exact Or.inr ⟨h, hx z (by simp)⟩
      · have hyz := hy z hz'
        have hxy : key x ≤ key y := not_lt.mp hc
        rcases hyz with h | ⟨h1, _⟩
        · rcases lt_or_eq_of_le hxy with h' | h'
          · exact Or.inl (lt_trans h' h)
          · exact Or.inl (h' ▸ h)
        · rcases lt_or_eq_of_le hxy with h' | h'
          · exact Or.inl (h1 ▸ h')
          · exact Or.inr ⟨h'.trans h1, hx z (by simp [hz'])⟩

theorem stableSortByKey_pairwise {key : Point2d → Int} {l : List Point2d}
    (hl : l.Pairwise (fun a b => a.lexLt b = true)) :
    (stableSortByKey key l).Pairwise (loadOrderRel key) := by
  induction l with
  | nil => simp [stableSortByKey]
  | cons x xs ih =>
    obtain ⟨hx, hxs⟩ := List.pairwise_cons.mp hl
    exact stableInsert_pairwise (ih hxs)
      fun y hy => hx y (mem_stableSortByKey.mp hy)

theorem mem_intRangeList {lo hi k : Int} :
    k ∈ intRangeList lo hi ↔ lo ≤ k ∧ k ≤ hi := by
  unfold intRangeList
  simp only [List.mem_map, List.mem_range]
  constructor
  · rintro ⟨m, hm, rfl⟩; omega
  · rintro ⟨h1, h2⟩
    exact ⟨(k - lo).toNat, by omega, by omega⟩

theorem pairwise_lt_intRangeList (lo hi : Int) :
    (intRangeList lo hi).Pairwise (· < ·) := by
  unfold intRangeList
  refine List.Pairwise.map _ ?_ (List.pairwise_lt_range _)
  intro a b hab
  omega

theorem mem_boundsToIndices {size : Point2d} {b : Bounds} {j : Point2d} :
    j ∈ boundsToIndices size b ↔
      (b.bmin.x < b.bmax.x ∧ b.bmin.y < b.bmax.y) ∧
      b.bmin.x.ediv size.x ≤ j.x ∧ j.x ≤ (b.bmax.x - 1).ediv size.x ∧
      b.bmin.y.ediv size.y ≤ j.y ∧ j.y ≤ (b.bmax.y - 1).ediv size.y := by
  unfold boundsToIndices
  split_ifs with hne
  · simp only [List.mem_flatMap, List.mem_map, mem_intRangeList]
    constructor
    · rintro ⟨ix, hx, iy, hy, rfl⟩
      exact ⟨hne, hx.1, hx.2, hy.1, hy.2⟩
    · rintro ⟨-, h1, h2, h3, h4⟩
      exact ⟨j.x, ⟨h1, h2⟩, j.y, ⟨h3, h4⟩, rfl⟩
  · simp [hne]

theorem flatMap_pairwise_lex (loy hiy : Int) (xs : List Int)
    (hxs : xs.Pairwise (· < ·)) :
    (xs.flatMap fun ix =>
        (intRangeList loy hiy).map fun iy => Point2d.mk ix iy).Pairwise
      (fun a c => a.lexLt c = true) := by
  induction xs with
  | nil => simp
  | cons ix rest ih =>
    obtain ⟨hix, hrest⟩ := List.pairwise_cons.mp hxs
    rw [List.flatMap_cons]
    refine List.pairwise_append.mpr ⟨?_, ih hrest, ?_⟩
    · refine List.Pairwise.map _ ?_ (pairwise_lt_intRangeList loy hiy)
      intro a c hac
      simp [Point2d.lexLt, hac]
    · intro p hp q hq
      obtain ⟨iy, -, rfl⟩ := List.mem_map.mp hp
      obtain ⟨ix', hix', iy', -, rfl⟩ := by
        simpa only [List.mem_flatMap, List.mem_map] using hq
      simp [Point2d.lexLt, hix ix' hix']

theorem boundsToIndices_pairwise_lex (size : Point2d) (b : Bounds) :
    (boundsToIndices size b).Pairwise (fun a c => a.lexLt c = true) := by
  unfold boundsToIndices
  split_ifs with hne
  · exact flatMap_pairwise_lex _ _ _
      (pairwise_lt_intRangeList (b.bmin.x.ediv size.x)
        ((b.bmax.x - 1).ediv size.x))
  · simp

theorem ediv_of_between {j p s : Int} (hs : 0 < s) (h1 : j * s ≤ p)
    (h2 : p < (j + 1) * s) : p.ediv s = j := by
  have h3 : j ≤ p / s := (Int.le_ediv_iff_mul_le hs).mpr h1
  have h4 : p / s < j + 1 := Int.ediv_lt_of_lt_mul hs (by linarith)
  have h5 : p / s = p.ediv s := rfl
  omega

/-- A chunk containing a point of a region is among the region's chunk
indices. -/
theorem index_mem_of_point {size : Point2d} (hsx : 0 < size.x)
    (hsy : 0 < size.y) {b : Bounds} {j p : Point2d}
    (hc : (chunkBounds size j).containsPoint p) (hb : b.containsPoint p) :
    j ∈ boundsToIndices size b := by
  obtain ⟨c1, c2, c3, c4⟩ := hc
  obtain ⟨b1, b2, b3, b4⟩ := hb
  simp only [chunkBounds, Point2d.mul_x, Point2d.mul_y, Point2d.add_x,
    Point2d.add_y] at c1 c2 c3 c4
  rw [mem_boundsToIndices]
  have hjx : p.x.ediv size.x = j.x := by
    refine ediv_of_between hsx c1 ?_
    have he : (j.x + 1) * size.x = j.x * size.x + size.x := by ring
    linarith [c2, he]
  have hjy : p.y.ediv size.y = j.y := by
    refine ediv_of_between hsy c3 ?_
    have he : (j.y + 1) * size.y = j.y * size.y + size.y := by ring
    linarith [c4, he]
  refine ⟨⟨by omega, by omega⟩, ?_, ?_, ?_, ?_⟩
  · rw [← hjx]; exact Int.ediv_le_ediv hsx b1
  · rw [← hjx]; exact Int.ediv_le_ediv hsx (by omega)
  · rw [← hjy]; exact Int.ediv_le_ediv hsy b3
  · rw [← hjy]; exact Int.ediv_le_ediv hsy (by omega)

/-! ### Layer runtime lemmas -/

section RuntimeLemmas

variable {α β : Type}
variable (sizeA sizeB : Point2d) (wA hA wB hB : Int) (pad : Point2d)
variable (computeA : Point2d → α)
variable (computeB : (Point2d → Option α) → Point2d → β)

theorem foldlM_cons_option {σ τ : Type} (f : σ → τ → Option σ) (x : τ)
    (xs : List τ) (s : σ) :
    (x :: xs).foldlM f s = (f s x).bind fun s1 => xs.foldlM f s1 := by
  rw [List.foldlM_cons]; rfl

theorem createA_spec {s s' : DagState α β} {i : Point2d}
    (hcr : createA wA hA computeA s i = some s')
    (hc : coherentGrid wA hA s.gridA computeA) :
    coherentGrid wA hA s'.gridA computeA ∧
    (∀ j q, liveAt wA hA s.gridA j q → liveAt wA hA s'.gridA j q) ∧
    liveAt wA hA s'.gridA i (computeA i) ∧
    s'.gridB = s.gridB := by
  unfold createA at hcr
  cases hg : rgGet wA hA s.gridA i with
  | some p =>
    rw [hg] at hcr
    cases hinc : rgIncref wA hA s.gridA i with
    | none => rw [hinc] at hcr; cases hcr
    | some g' =>
      rw [hinc] at hcr
      cases hcr
      have hp : p = computeA i := hc i p hg
      refine ⟨rgIncref_coherent hc hinc,
        fun j q hl => rgIncref_preserve_live hinc hl, ?_, rfl⟩
      subst hp
      exact rgIncref_live_self hg hinc
  | none =>
    rw [hg] at hcr
    cases hset : rgSet wA hA s.gridA i (computeA i) with
    | none => rw [hset] at hcr; cases hcr
    | some g' =>
      rw [hset] at hcr
      cases hcr
      refine ⟨rgSet_coherent hc hset, ?_, rgSet_live_self hset, rfl⟩
      intro j q hl
      by_cases hij : j = i
      · subst hij
        rw [liveAt_rgGet hl] at hg
        cases hg
      · exact rgSet_preserve_live hset hl hij

theorem foldA_spec {l : List Point2d} {s s' : DagState α β}
    (hf : l.foldlM (createA wA hA computeA) s = some s')
    (hc : coherentGrid wA hA s.gridA computeA) :
    coherentGrid wA hA s'.gridA computeA ∧
    (∀ j q, liveAt wA hA s.gridA j q → liveAt wA hA s'.gridA j q) ∧
    (∀ j ∈ l, liveAt wA hA s'.gridA j (computeA j)) ∧
    s'.gridB = s.gridB := by
  induction l generalizing s with
  | nil =>
    cases hf
    exact ⟨hc, fun j q hl => hl, by simp, rfl⟩
  | cons x xs ih =>
    rw [foldlM_cons_option] at hf
    obtain ⟨s1, hcr, hf'⟩ := Option.bind_eq_some.mp hf
    obtain ⟨hc1, hpres1, hlive1, hB1⟩ := createA_spec wA hA computeA hcr hc
    obtain ⟨hc2, hpres2, hlive2, hB2⟩ := ih hf' hc1
    refine ⟨hc2, fun j q hl => hpres2 j q (hpres1 j q hl), ?_, hB2.trans hB1⟩
    intro j hj
    rcases List.mem_cons.mp hj with hj' | hj'
    · subst hj'
      exact hpres2 j (computeA j) hlive1
    · exact hlive2 j hj'

theorem ensureA_spec {bounds : Bounds} {s s' : DagState α β}
    (hf : ensureA sizeA wA hA computeA bounds s = some s')
    (hc : coherentGrid wA hA s.gridA computeA) :
    coherentGrid wA hA s'.gridA computeA ∧
    (∀ j q, liveAt wA hA s.gridA j q → liveAt wA hA s'.gridA j q) ∧
    (∀ j ∈ boundsToIndices sizeA bounds,
      liveAt wA hA s'.gridA j (computeA j)) ∧
    s'.gridB = s.gridB := by
  obtain ⟨hc', hpres, hlive, hB⟩ := foldA_spec wA hA computeA hf hc
  refine ⟨hc', hpres, ?_, hB⟩
  intro j hj
  exact hlive j (mem_stableSortByKey.mpr hj)

theorem createB_spec
    (hLocal : ∀ (g g' : Point2d → Option α) (i : Point2d),
        (∀ j ∈ padIndicesB sizeA sizeB pad i, g j = g' j) →
        computeB g i = computeB g' i)
    {s s' : DagState α β} {i : Point2d}
    (hcr : createB sizeA sizeB wA hA wB hB pad computeA computeB s i
      = some s')
    (hcA : coherentGrid wA hA s.gridA computeA)
    (hcB : coherentGrid wB hB s.gridB (canonB computeA computeB)) :
    coherentGrid wA hA s'.gridA computeA ∧
    coherentGrid wB hB s'.gridB (canonB computeA computeB) ∧
    (∀ j q, liveAt wA hA s.gridA j q → liveAt wA hA s'.gridA j q) ∧
    (∀ j q, liveAt wB hB s.gridB j q → liveAt wB hB s'.gridB j q) ∧
    liveAt wB hB s'.gridB i (canonB computeA computeB i) ∧
    (∀ j ∈ padIndicesB sizeA sizeB pad i,
      liveAt wA hA s'.gridA j (computeA j)) := by
  unfold createB at hcr
  obtain ⟨s1, hens, hrest⟩ := Option.bind_eq_some.mp hcr
  obtain ⟨hcA1, hpresA, hpads, hBeq⟩ :=
    ensureA_spec sizeA wA hA computeA hens hcA
  have hcB1 : coherentGrid wB hB s1.gridB (canonB computeA computeB) := by
    rw [hBeq]; exact hcB
  have hpads' : ∀ j ∈ padIndicesB sizeA sizeB pad i,
      liveAt wA hA s1.gridA j (computeA j) := hpads
  cases hg : rgGet wB hB s1.gridB i with
  | some p =>
    rw [hg] at hrest
    cases hinc : rgIncref wB hB s1.gridB i with
    | none => rw [hinc] at hrest; cases hrest
    | some g' =>
      rw [hinc] at hrest
      cases hrest
      have hp : p = canonB computeA computeB i := hcB1 i p hg
      refine ⟨hcA1, rgIncref_coherent hcB1 hinc, hpresA, ?_, ?_, hpads'⟩
      · intro j q hl
        refine rgIncref_preserve_live hinc ?_
        rw [hBeq]; exact hl
      · subst hp
        exact rgIncref_live_self hg hinc
  | none =>
    rw [hg] at hrest
    have hpay : computeB (rgGet wA hA s1.gridA) i
        = canonB computeA computeB i := by
      apply hLocal
      intro j hj
      exact liveAt_rgGet (hpads' j hj)
    rw [hpay] at hrest
    cases hset : rgSet wB hB s1.gridB i (canonB computeA computeB i) with
    | none => rw [hset] at hrest; cases hrest
    | some g' =>
      rw [hset] at hrest
      cases hrest
      refine ⟨hcA1, rgSet_coherent hcB1 hset, hpresA, ?_,
        rgSet_live_self hset, hpads'⟩
      intro j q hl
      have hl1 : liveAt wB hB s1.gridB j q := by rw [hBeq]; exact hl
      by_cases hij : j = i
      · subst hij
        rw [liveAt_rgGet hl1] at hg
        cases hg
      · exact rgSet_preserve_live hset hl1 hij

theorem foldB_spec
    (hLocal : ∀ (g g' : Point2d → Option α) (i : Point2d),
        (∀ j ∈ padIndicesB sizeA sizeB pad i, g j = g' j) →
        computeB g i = computeB g' i)
    {l : List Point2d} {s s' : DagState α β}
    (hf : l.foldlM
      (createB sizeA sizeB wA hA wB hB pad computeA computeB) s = some s')
    (hcA : coherentGrid wA hA s.gridA computeA)
    (hcB : coherentGrid wB hB s.gridB (canonB computeA computeB)) :
    coherentGrid wA hA s'.gridA computeA ∧
    coherentGrid wB hB s'.gridB (canonB computeA computeB) ∧
    (∀ j q, liveAt wA hA s.gridA j q → liveAt wA hA s'.gridA j q) ∧
    (∀ j q, liveAt wB hB s.gridB j q → liveAt wB hB s'.gridB j q) ∧
    (∀ i ∈ l, liveAt wB hB s'.gridB i (canonB computeA computeB i) ∧
      ∀ j ∈ padIndicesB sizeA sizeB pad i,
        liveAt wA hA s'.gridA j (computeA j)) := by
  induction l generalizing s with
  | nil =>
    cases hf
    exact ⟨hcA, hcB, fun j q hl => hl, fun j q hl => hl, by simp⟩
  | cons x xs ih =>
    rw [foldlM_cons_option] at hf
    obtain ⟨s1, hcr, hf'⟩ := Option.bind_eq_some.mp hf
    obtain ⟨hcA1, hcB1, hpA1, hpB1, hlive1, hpad1⟩ :=
      createB_spec sizeA sizeB wA hA wB hB pad computeA computeB hLocal
        hcr hcA hcB
    obtain ⟨hcA2, hcB2, hpA2, hpB2, hlive2⟩ := ih hf' hcA1 hcB1
    refine ⟨hcA2, hcB2, fun j q hl => hpA2 j q (hpA1 j q hl),
      fun j q hl => hpB2 j q (hpB1 j q hl), ?_⟩
    intro i hi
    rcases List.mem_cons.mp hi with hi' | hi'
    · subst hi'
      exact ⟨hpB2 i _ hlive1, fun j hj => hpA2 j _ (hpad1 j hj)⟩
    · exact hlive2 i hi'

theorem ensureB_spec
    (hLocal : ∀ (g g' : Point2d → Option α) (i : Point2d),
        (∀ j ∈ padIndicesB sizeA sizeB pad i, g j = g' j) →
        computeB g i = computeB g' i)
    {bounds : Bounds} {s s' : DagState α β}
    (hf : ensureB sizeA sizeB wA hA wB hB pad computeA computeB bounds s
      = some s')
    (hcA : coherentGrid wA hA s.gridA computeA)
    (hcB : coherentGrid wB hB s.gridB (canonB computeA computeB)) :
    coherentGrid wA hA s'.gridA computeA ∧
    coherentGrid wB hB s'.gridB (canonB computeA computeB) ∧
    (∀ i ∈ boundsToIndices sizeB bounds,
      liveAt wB hB s'.gridB i (canonB computeA computeB i) ∧
      ∀ j ∈ padIndicesB sizeA sizeB pad i,
        liveAt wA hA s'.gridA j (computeA j)) := by
  obtain ⟨hcA', hcB', -, -, hlive⟩ :=
    foldB_spec sizeA sizeB wA hA wB hB pad computeA computeB hLocal hf
      hcA hcB
  exact ⟨hcA', hcB', fun i hi => hlive i (mem_stableSortByKey.mpr hi)⟩

/-- A freshly constructed DAG is coherent: its grids are empty. -/
theorem coherent_emptyDag_A :
    coherentGrid wA hA (emptyDag : DagState α β).gridA computeA := by
  intro j p hg
  simp [emptyDag, rgGet, rgEntry, lookupSlot] at hg

theorem coherent_emptyDag_B :
    coherentGrid wB hB (emptyDag : DagState α β).gridB
      (canonB computeA computeB) := by
  intro j p hg
  simp [emptyDag, rgGet, rgEntry, lookupSlot] at hg

end RuntimeLemmas

/-! ### Reduced-points lemmas -/

section ReducedPointsLemmas

variable {P : Type} [DecidableEq P]
variable (pos : P → Point2d) (radius : P → Int) (priority : P → Int)
variable (maxRadius : Int) (u : Point2d → List P) (size : Point2d)

/-- The spec's rejection condition (§4.5): some other point of the
scanned padded region overlaps `p` (Manhattan) and beats it in the
`(priority, position.x, position.y)` lexicographic order. -/
def specRejected (p : P) : Prop :=
  ∃ j ∈ boundsToIndices size (scanBounds pos radius maxRadius p),
    ∃ q ∈ u j, q ≠ p ∧
      (pos q).manhattanDist (pos p) < radius p + radius q ∧
      (priority p < priority q ∨
        (priority p = priority q ∧ (pos p).lexLt (pos q) = true))

theorem rejects_iff (p q : P) :
    rejects pos radius priority p q = true ↔
      q ≠ p ∧ (pos q).manhattanDist (pos p) < radius p + radius q ∧
      (priority p < priority q ∨
        (priority p = priority q ∧ (pos p).lexLt (pos q) = true)) := by
  unfold rejects lowerPriority
  simp [and_assoc]

theorem keepPoint_iff (p : P) :
    keepPoint pos radius priority maxRadius u size p = true ↔
      ¬ specRejected pos radius priority maxRadius u size p := by
  unfold keepPoint specRejected
  rw [Bool.not_eq_true', List.any_eq_false]
  constructor
  · intro hk ⟨j, hj, q, hq, hcond⟩
    have h := hk j hj
    rw [List.any_eq_true] at h
    exact h ⟨q, hq, (rejects_iff pos radius priority p q).mpr hcond⟩
  · intro hk j hj
    rw [List.any_eq_true]
    rintro ⟨q, hq, hr⟩
    exact hk ⟨j, hj, q, hq, (rejects_iff pos radius priority p q).mp hr⟩

theorem reducedCompute_mem {i : Point2d} {out : List P}
    (hc : reducedCompute pos radius priority maxRadius u size i = some out)
    (p : P) :
    p ∈ out ↔
      p ∈ u i ∧ ¬ specRejected pos radius priority maxRadius u size p := by
  unfold reducedCompute at hc
  by_cases hlen : ((u i).filter
      (keepPoint pos radius priority maxRadius u size)).length ≤ 7
  · rw [if_pos hlen] at hc
    cases hc
    rw [List.mem_filter, keepPoint_iff]
  · rw [if_neg hlen] at hc
    cases hc

theorem reducedCompute_sublist {i : Point2d} {out : List P}
    (hc : reducedCompute pos radius priority maxRadius u size i
      = some out) :
    out.Sublist (u i) := by
  unfold reducedCompute at hc
  by_cases hlen : ((u i).filter
      (keepPoint pos radius priority maxRadius u size)).length ≤ 7
  · rw [if_pos hlen] at hc
    cases hc
    exact List.filter_sublist _
  · rw [if_neg hlen] at hc
    cases hc

theorem manhattanDist_comm (a b : Point2d) :
    a.manhattanDist b = b.manhattanDist a := by
  unfold Point2d.manhattanDist
  omega

/-- A point whose Manhattan distance to `p.position()` is below
`p.radius() + max_radius` lies inside `p`'s scanned region. -/
theorem pos_mem_scanBounds {p : P} {v : Point2d}
    (h : (pos p).manhattanDist v < radius p + maxRadius) :
    (scanBounds pos radius maxRadius p).containsPoint v := by
  unfold scanBounds Bounds.point Bounds.pad Bounds.containsPoint
    Point2d.manhattanDist at *
  simp only [Point2d.add_x, Point2d.add_y, Point2d.sub_x, Point2d.sub_y,
    Point2d.splat_x, Point2d.splat_y] at *
  omega

/-- Totality of the `(priority, x, y)` order on points of distinct
positions. -/
theorem lex_total {p q : P} (hne : pos p ≠ pos q) :
    (priority p < priority q ∨
      (priority p = priority q ∧ (pos p).lexLt (pos q) = true)) ∨
    (priority q < priority p ∨
      (priority q = priority p ∧ (pos q).lexLt (pos p) = true)) := by
  rcases lt_trichotomy (priority p) (priority q) with h | h | h
  · exact Or.inl (Or.inl h)
  · have hxy : (pos p).lexLt (pos q) = true ∨
        (pos q).lexLt (pos p) = true := by
      unfold Point2d.lexLt
      rcases lt_trichotomy (pos p).x (pos q).x with hx | hx | hx
      · simp [hx]
      · rcases lt_trichotomy (pos p).y (pos q).y with hy | hy | hy
        · simp [hx, hy]
        · exact absurd (Point2d.ext_xy hx hy) hne
        · simp [hx.symm, hy]
      · simp [hx]
    rcases hxy with hl | hl
    · exact Or.inl (Or.inr ⟨h, hl⟩)
    · exact Or.inr (Or.inr ⟨h.symm, hl⟩)
  · exact Or.inr (Or.inl h)

end ReducedPointsLemmas

/-! ### Roads lemmas -/

/-- The chunk payloads yielded by `get_grid_range` over the 3×3 window:
resident chunks in window order, non-resident indices silently skipped. -/
def windowCells (g : Point2d → Option (List Point2d)) (i : Point2d) :
    List (List Point2d) :=
  (roadsWindow i).filterMap g

theorem flatten_length_le (l : List (List Point2d))
    (hl : ∀ c ∈ l, c.length ≤ 3) : l.flatten.length ≤ 3 * l.length := by
  induction l with
  | nil => simp
  | cons c cs ih =>
    simp only [List.flatten_cons, List.length_append, List.length_cons]
    have h1 := ih fun x hx => hl x (by simp [hx])
    have h2 := hl c (by simp)
    omega

theorem intRangeList_length (lo hi : Int) :
    (intRangeList lo hi).length = (hi + 1 - lo).toNat := by
  simp [intRangeList]

theorem roadsWindow_length (i : Point2d) : (roadsWindow i).length = 9 := by
  unfold roadsWindow latticePoints Bounds.point Bounds.pad
  rw [if_pos (by constructor <;> simp <;> omega)]
  rw [List.length_flatMap]
  have hy : ((i + Point2d.splat 1 + Point2d.splat 1).y - 1 + 1
      - (i - Point2d.splat 1).y).toNat = 3 := by simp; omega
  have hx : ((i + Point2d.splat 1 + Point2d.splat 1).x - 1 + 1
      - (i - Point2d.splat 1).x).toNat = 3 := by simp; omega
  simp only [Function.comp_def, List.length_map, intRangeList_length, hy]
  rw [List.map_const', intRangeList_length, hx]
  rfl

theorem windowCells_length_le (g : Point2d → Option (List Point2d))
    (i : Point2d) : (windowCells g i).length ≤ 9 := by
  unfold windowCells
  calc ((roadsWindow i).filterMap g).length ≤ (roadsWindow i).length :=
        List.length_filterMap_le _ _
    _ = 9 := roadsWindow_length i

theorem gatherGo_eq (cells : List (List Point2d)) (k : Nat)
    (pts : List Point2d) (start n : Nat)
    (hlen : ∀ c ∈ cells, c.length ≤ 3) (hk : k + cells.length ≤ 9)
    (hpts : pts.length ≤ 3 * k) :
    gatherGo k pts start n cells =
      some (pts ++ cells.flatten,
        (if k ≤ 4 ∧ 4 - k < cells.length then
          (pts ++ (cells.take (4 - k)).flatten).length else start),
        (if k ≤ 4 ∧ 4 - k < cells.length then
          (cells.getD (4 - k) []).length else n)) := by
  induction cells generalizing k pts start n with
  | nil => simp [gatherGo]
  | cons c cs ih =>
    have hc3 : c.length ≤ 3 := hlen c (by simp)
    have hcs : ∀ x ∈ cs, x.length ≤ 3 := fun x hx => hlen x (by simp [hx])
    have hk' : (k + 1) + cs.length ≤ 9 := by
      simp only [List.length_cons] at hk; omega
    unfold gatherGo
    have hnof : ¬ 27 < (pts ++ c).length := by
      simp only [List.length_append]; omega
    rw [if_neg hnof]
    rw [ih _ _ _ _ hcs hk' (by simp only [List.length_append]; omega)]
    by_cases hk4 : k = 4
    · subst hk4
      have h1 : ¬((4 : Nat) + 1 ≤ 4 ∧ 4 - (4 + 1) < cs.length) := by omega
      have h2 : (4 : Nat) ≤ 4 ∧ 4 - 4 < (c :: cs).length := by
        simp only [List.length_cons]; omega
      simp only [if_neg h1, if_pos h2, if_pos rfl]
      simp
    · by_cases hklt : k < 4
      · by_cases hin : 4 - (k + 1) < cs.length
        · have hA' : k + 1 ≤ 4 ∧ 4 - (k + 1) < cs.length := ⟨by omega, hin⟩
          have hA : k ≤ 4 ∧ 4 - k < (c :: cs).length := by
            simp only [List.length_cons]; omega
          have hsucc : 4 - k = (4 - (k + 1)) + 1 := by omega
          simp only [if_pos hA', if_pos hA, if_neg hk4, hsucc]
          have h32 : k ≤ 4 ∧ 3 - k < cs.length := ⟨by omega, by omega⟩
          simp [List.take_succ_cons, h32]
        · have hA' : ¬(k + 1 ≤ 4 ∧ 4 - (k + 1) < cs.length) := by omega
          have hA : ¬(k ≤ 4 ∧ 4 - k < (c :: cs).length) := by
            simp only [List.length_cons]; omega
          simp only [if_neg hA', if_neg hA, if_neg hk4]
          simp
      · have hA' : ¬(k + 1 ≤ 4 ∧ 4 - (k + 1) < cs.length) := by omega
        have hA : ¬(k ≤ 4 ∧ 4 - k < (c :: cs).length) := by
          simp only [List.length_cons]; omega
        simp only [if_neg hA', if_neg hA, if_neg hk4]
        simp

/-- With all nine window chunks yielded, the gather loop returns the
concatenation, and the recorded slice is exactly the fifth chunk. -/
theorem computeRoads_all_present {g : Point2d → Option (List Point2d)}
    {i : Point2d} (hlen : ∀ c ∈ windowCells g i, c.length ≤ 3)
    (hnum : (windowCells g i).length = 9) :
    computeRoads g i = some ⟨roadsFrom (windowCells g i).flatten
      ((windowCells g i).take 4).flatten.length
      ((windowCells g i).getD 4 []).length⟩ := by
  unfold computeRoads
  rw [show (roadsWindow i).filterMap g = windowCells g i from rfl]
  rw [gatherGo_eq (windowCells g i) 0 [] USIZE_MAX USIZE_MAX hlen
    (by omega) (by simp)]
  have hcond : (0 : Nat) ≤ 4 ∧ 4 - 0 < (windowCells g i).length := by omega
  simp only [if_pos hcond]
  simp

/-- With fewer than five window chunks yielded, the sentinels survive the
gather loop and the road list is empty. -/
theorem computeRoads_lt5 {g : Point2d → Option (List Point2d)}
    {i : Point2d} (hlen : ∀ c ∈ windowCells g i, c.length ≤ 3)
    (hnum : (windowCells g i).length < 5) :
    computeRoads g i = some ⟨[]⟩ := by
  unfold computeRoads
  rw [show (roadsWindow i).filterMap g = windowCells g i from rfl]
  rw [gatherGo_eq (windowCells g i) 0 [] USIZE_MAX USIZE_MAX hlen
    (by omega) (by simp)]
  have hcond : ¬((0 : Nat) ≤ 4 ∧ 4 - 0 < (windowCells g i).length) := by
    omega
  simp only [if_neg hcond]
  have hflat : (windowCells g i).flatten.length ≤ 27 := by
    have := flatten_length_le (windowCells g i) hlen
    omega
  have hdrop : (((windowCells g i).flatten).enum.drop USIZE_MAX)
      = [] := by
    apply List.drop_eq_nil_of_le
    simp only [List.enum_length]
    unfold USIZE_MAX
    omega
  simp [roadsFrom, hdrop]

/-- The relative-neighborhood test, as the spec phrases it. -/
theorem rngKeep_iff (pts : List Point2d) (a b : Point2d) :
    rngKeep pts a b = true ↔
      ∀ c ∈ pts, c ≠ a → c ≠ b →
        (a.distSquared b < a.distSquared c ∨
          a.distSquared b < c.distSquared b) := by
  unfold rngKeep
  rw [List.all_eq_true]
  constructor
  · intro hall c hc h1 h2
    have h := hall c hc
    simp only [Bool.or_eq_true, decide_eq_true_eq] at h
    rcases h with ((h | h) | h) | h
    · exact absurd h.symm h1
    · exact absurd h.symm h2
    · exact Or.inl h
    · exact Or.inr h
  · intro hall c hc
    simp only [Bool.or_eq_true, decide_eq_true_eq]
    by_cases h1 : a = c
    · exact Or.inl (Or.inl (Or.inl h1))
    · by_cases h2 : b = c
      · exact Or.inl (Or.inl (Or.inr h2))
      · rcases hall c hc (fun h => h1 h.symm) (fun h => h2 h.symm)
          with h | h
        · exact Or.inl (Or.inr h)
        · exact Or.inr h

/-- The road list of C4, written from the spec's words: `P` is the
concatenation of the nine window chunks, the center slice starts after the
first four chunks and has the fifth chunk's length, and a segment `(a, b)`
with `a` in the center slice and `b` later in `P` is kept iff every other
point is strictly farther from one of the endpoints than they are from
each other; segments are listed in nested-loop order. -/
def specRNGRoads (cells : List (List Point2d)) : List Line :=
  let pts := cells.flatten
  let start := ((cells.take 4).map List.length).sum
  let n := (cells.getD 4 []).length
  ((pts.enum.drop start).take n).flatMap fun ia =>
    (pts.drop (ia.1 + 1)).filterMap fun b =>
      if ∀ c ∈ pts, c ≠ ia.2 → c ≠ b →
          (ia.2.distSquared b < ia.2.distSquared c ∨
            ia.2.distSquared b < c.distSquared b)
      then some (ia.2.to b) else none

theorem roadsFrom_eq_spec (cells : List (List Point2d)) :
    roadsFrom cells.flatten ((cells.take 4).flatten).length
      ((cells.getD 4 []).length) = specRNGRoads cells := by
  unfold roadsFrom specRNGRoads
  rw [show ((cells.take 4).flatten).length
      = ((cells.take 4).map List.length).sum from by
    simp [List.length_flatten]]
  congr 1
  funext ia
  congr 1
  funext b
  exact if_congr (rngKeep_iff cells.flatten ia.2 b) rfl rfl

/-! ### Concrete instances used by the claim witnesses -/

/-- Producer payload for the demo two-layer DAG. -/
def demoComputeA : Point2d → Int := fun j => j.x + j.y

/-- Consumer payload for the demo DAG: the dependency's chunks over the
padded region, as read through the rolling grid. -/
def demoComputeB : (Point2d → Option Int) → Point2d → List (Option Int) :=
  fun g i => (padIndicesB ⟨1, 1⟩ ⟨1, 1⟩ ⟨1, 1⟩ i).map g

theorem demoComputeB_local (g g' : Point2d → Option Int) (i : Point2d)
    (hj : ∀ j ∈ padIndicesB ⟨1, 1⟩ ⟨1, 1⟩ ⟨1, 1⟩ i, g j = g' j) :
    demoComputeB g i = demoComputeB g' i :=
  List.map_congr_left hj

/-- The demo region `[0, 1)²` (consumer chunk `(0,0)` only). -/
def demoR1 : Bounds := ⟨⟨0, 0⟩, ⟨1, 1⟩⟩

/-- The demo region `[0, 2) × [0, 1)` (consumer chunks `(0,0)`, `(1,0)`). -/
def demoR2 : Bounds := ⟨⟨0, 0⟩, ⟨2, 1⟩⟩

/-- The demo DAG state after loading `demoR1` from fresh. -/
def demoS1 : DagState Int (List (Option Int)) :=
  (ensureB ⟨1, 1⟩ ⟨1, 1⟩ 4 4 4 4 ⟨1, 1⟩ demoComputeA demoComputeB demoR1
    emptyDag).getD emptyDag

/-- The demo DAG state after loading `demoR2` from fresh. -/
def demoS2 : DagState Int (List (Option Int)) :=
  (ensureB ⟨1, 1⟩ ⟨1, 1⟩ 4 4 4 4 ⟨1, 1⟩ demoComputeA demoComputeB demoR2
    emptyDag).getD emptyDag

/-- Radius / priority function of spec scenario B: constant 100. -/
def const100 : Point2d → Int := fun _ => 100

/-- Candidate points of spec scenario B: two points in chunk `(0,0)`. -/
def scenBPoints : Point2d → List Point2d :=
  fun j => if j = ⟨0, 0⟩ then [⟨10, 10⟩, ⟨50, 10⟩] else []

/-- Two radius-100 candidates exactly 200 apart, both surviving. -/
def exclPoints : Point2d → List Point2d :=
  fun j => if j = ⟨0, 0⟩ then [⟨10, 10⟩, ⟨210, 10⟩] else []

/-- A reduced-points grid with a right triangle in the center chunk, all
eight neighbors resident and empty.  (The spec's scenario C diamond has
four points, which would exceed the example's `ArrayVec<Point2d, 3>`
chunk capacity.)  The RNG keeps the two legs and drops the hypotenuse:
`d²((100,0),(0,100)) = 20000` is not strictly below both distances to
`(0,0)`. -/
def triangleGrid : Point2d → Option (List Point2d) :=
  fun j =>
    if j = ⟨0, 0⟩ then some [⟨0, 0⟩, ⟨100, 0⟩, ⟨0, 100⟩]
    else some []

/-- A partially loaded reduced-points grid: only the first window chunk is
resident. -/
def sparseGrid : Point2d → Option (List Point2d) :=
  fun j => if j = ⟨-1, -1⟩ then some [⟨5, 5⟩] else none

/-! ### Claim theorems -/

/-- C1: chunk computation is deterministic.  `LocationsChunk::compute`
ignores the layer state, so its payload depends only on the chunk index;
and in the layer runtime, two `ensure_loaded_in_bounds` runs over freshly
constructed DAGs — over any two regions, hence computing the chunk at any
time and in any order relative to other chunks — store the identical
canonical payload `compute(deps, i)` at every index they both cover. -/
theorem claim_C1_determinism :
    (∀ (l1 l2 : LocationsState) (i : Point2d),
      LocationsChunk.compute l1 i = LocationsChunk.compute l2 i) ∧
    (∀ {α β : Type} (sizeA sizeB : Point2d) (wA hA wB hB : Int)
      (pad : Point2d) (computeA : Point2d → α)
      (computeB : (Point2d → Option α) → Point2d → β),
      (∀ (g g' : Point2d → Option α) (i : Point2d),
        (∀ j ∈ padIndicesB sizeA sizeB pad i, g j = g' j) →
        computeB g i = computeB g' i) →
      ∀ (R1 R2 : Bounds) (s1 s2 : DagState α β) (i : Point2d),
        ensureB sizeA sizeB wA hA wB hB pad computeA computeB R1 emptyDag
          = some s1 →
        ensureB sizeA sizeB wA hA wB hB pad computeA computeB R2 emptyDag
          = some s2 →
        i ∈ boundsToIndices sizeB R1 → i ∈ boundsToIndices sizeB R2 →
        rgGet wB hB s1.gridB i = rgGet wB hB s2.gridB i ∧
        rgGet wB hB s1.gridB i = some (canonB computeA computeB i)) := by
  constructor
  · intro l1 l2 i
    rfl
  · intro α β sA sB wA hA wB hB pad cA cB hLocal R1 R2 s1 s2 i h1 h2 hm1 hm2
    obtain ⟨-, -, hl1⟩ := ensureB_spec sA sB wA hA wB hB pad cA cB hLocal h1
      (coherent_emptyDag_A wA hA cA) (coherent_emptyDag_B wB hB cA cB)
    obtain ⟨-, -, hl2⟩ := ensureB_spec sA sB wA hA wB hB pad cA cB hLocal h2
      (coherent_emptyDag_A wA hA cA) (coherent_emptyDag_B wB hB cA cB)
    have e1 := liveAt_rgGet (hl1 i hm1).1
    have e2 := liveAt_rgGet (hl2 i hm2).1
    exact ⟨e1.trans e2.symm, e1⟩

/-- Witness for C1: the `Locations` chunk at `(2,3)` is unaffected by the
layer state, and the demo DAG loaded over two different regions holds the
same canonical payload at chunk `(0,0)`. -/
theorem claim_C1_determinism_witness :
    (LocationsChunk.compute ⟨[]⟩ ⟨2, 3⟩
      = LocationsChunk.compute ⟨[(⟨9, 9⟩, ⟨[⟨1, 2⟩]⟩)]⟩ ⟨2, 3⟩) ∧
    (rgGet 4 4 demoS1.gridB ⟨0, 0⟩ = rgGet 4 4 demoS2.gridB ⟨0, 0⟩ ∧
      rgGet 4 4 demoS1.gridB ⟨0, 0⟩
        = some (canonB demoComputeA demoComputeB ⟨0, 0⟩)) := by
  refine ⟨claim_C1_determinism.1 _ _ _, ?_⟩
  exact claim_C1_determinism.2 ⟨1, 1⟩ ⟨1, 1⟩ 4 4 4 4 ⟨1, 1⟩ demoComputeA
    demoComputeB demoComputeB_local demoR1 demoR2 demoS1 demoS2 ⟨0, 0⟩
    (by decide) (by decide) (by decide) (by decide)

/-- C2: load postcondition.  If `ensure_loaded_in_bounds(R)` returns
(without a fatal ring panic) from a coherent state, then every chunk index
`i` of the region is resident in the consumer's rolling grid with payload
`compute(deps, i)`, and transitively every dependency chunk of `i`'s
padded region is resident in the producer's grid with its canonical
payload. -/
theorem claim_C2_load_postcondition {α β : Type} (sizeA sizeB : Point2d)
    (wA hA wB hB : Int) (pad : Point2d) (computeA : Point2d → α)
    (computeB : (Point2d → Option α) → Point2d → β)
    (hLocal : ∀ (g g' : Point2d → Option α) (i : Point2d),
      (∀ j ∈ padIndicesB sizeA sizeB pad i, g j = g' j) →
      computeB g i = computeB g' i)
    (R : Bounds) (s s' : DagState α β)
    (hcA : coherentGrid wA hA s.gridA computeA)
    (hcB : coherentGrid wB hB s.gridB (canonB computeA computeB))
    (hrun : ensureB sizeA sizeB wA hA wB hB pad computeA computeB R s
      = some s') :
    ∀ i ∈ boundsToIndices sizeB R,
      rgGet wB hB s'.gridB i = some (canonB computeA computeB i) ∧
      ∀ j ∈ padIndicesB sizeA sizeB pad i,
        rgGet wA hA s'.gridA j = some (computeA j) := by
  obtain ⟨-, -, hlive⟩ := ensureB_spec sizeA sizeB wA hA wB hB pad computeA
    computeB hLocal hrun hcA hcB
  intro i hi
  exact ⟨liveAt_rgGet (hlive i hi).1,
    fun j hj => liveAt_rgGet ((hlive i hi).2 j hj)⟩

/-- Witness for C2: loading `[0,1)²` on the demo DAG leaves consumer
chunk `(0,0)` resident with its canonical payload and dependency chunk
`(1,1)` of the padded region resident with `compute(1,1)`. -/
theorem claim_C2_witness :
    rgGet 4 4 demoS1.gridB ⟨0, 0⟩
      = some (canonB demoComputeA demoComputeB ⟨0, 0⟩) ∧
    rgGet 4 4 demoS1.gridA ⟨1, 1⟩ = some (demoComputeA ⟨1, 1⟩) := by
  have hrun : ensureB ⟨1, 1⟩ ⟨1, 1⟩ 4 4 4 4 ⟨1, 1⟩ demoComputeA demoComputeB
      demoR1 emptyDag = some demoS1 := by decide
  have h := claim_C2_load_postcondition ⟨1, 1⟩ ⟨1, 1⟩ 4 4 4 4 ⟨1, 1⟩
    demoComputeA demoComputeB demoComputeB_local demoR1 emptyDag demoS1
    (coherent_emptyDag_A 4 4 demoComputeA)
    (coherent_emptyDag_B 4 4 demoComputeA demoComputeB) hrun ⟨0, 0⟩
    (by decide)
  exact ⟨h.1, h.2 ⟨1, 1⟩ (by decide)⟩

/-- C5, counterexample: for the region `[0,500)²` (center `(250,250)`,
inside chunk `(0,0)`), the first chunk materialized is `(1,1)` and the
chunk containing the center is materialized last — the sort key is the
distance from the chunk's minimum corner `index * SIZE` to the center, so
the chunk nearest the region's center is not always first. -/
theorem claim_C5_counterexample :
    (loadOrder ⟨256, 256⟩ ⟨⟨0, 0⟩, ⟨500, 500⟩⟩).head? = some ⟨1, 1⟩ ∧
    (chunkBounds ⟨256, 256⟩ ⟨0, 0⟩).containsPoint
      (Bounds.center ⟨⟨0, 0⟩, ⟨500, 500⟩⟩) ∧
    ¬ (chunkBounds ⟨256, 256⟩ ⟨1, 1⟩).containsPoint
      (Bounds.center ⟨⟨0, 0⟩, ⟨500, 500⟩⟩) ∧
    (loadOrder ⟨256, 256⟩ ⟨⟨0, 0⟩, ⟨500, 500⟩⟩).getLast? = some ⟨0, 0⟩ := by
  decide

/-- C5, amended: `ensure_loaded_in_bounds` materializes the chunk indices
intersecting the region sorted by squared distance from the region's
center to the chunk's minimum corner (`index * SIZE`), distance ties
broken by `(x, y)` lexicographic order; the chunk whose minimum corner is
nearest comes first, which need not be the chunk containing (or nearest
to) the center. -/
theorem claim_C5_amended (size : Point2d) (R : Bounds) :
    (loadOrder size R).Perm (boundsToIndices size R) ∧
    (loadOrder size R).Pairwise (loadOrderRel (loadKey size R)) :=
  ⟨stableSortByKey_perm _ _,
    stableSortByKey_pairwise (boundsToIndices_pairwise_lex size R)⟩

/-- C3: reduced-points rejection rule.  A candidate `p` of the upstream
chunk at `i` appears in `ReducedUniformPoint::compute`'s output iff there
is no other upstream point `q` in the scanned padded region whose
Manhattan distance to `p` is strictly below `radius(p) + radius(q)` while
`p` is strictly lower in the `(priority, position.x, position.y)`
lexicographic order. -/
theorem claim_C3_rejection_rule {P : Type} [DecidableEq P]
    (pos : P → Point2d) (radius priority : P → Int) (maxRadius : Int)
    (u : Point2d → List P) (size : Point2d) {i : Point2d} {out : List P}
    (hc : reducedCompute pos radius priority maxRadius u size i = some out)
    (p : P) :
    p ∈ out ↔
      p ∈ u i ∧
      ¬ ∃ j ∈ boundsToIndices size (scanBounds pos radius maxRadius p),
          ∃ q ∈ u j, q ≠ p ∧
            (pos q).manhattanDist (pos p) < radius p + radius q ∧
            (priority p < priority q ∨
              (priority p = priority q ∧ (pos p).lexLt (pos q) = true)) :=
  reducedCompute_mem pos radius priority maxRadius u size hc p

/-- Witness for C3: in scenario B, `(10,10)` is rejected — it is in the
upstream chunk but `(50,10)` overlaps it and wins the tie on `x`. -/
theorem claim_C3_witness :
    ((⟨10, 10⟩ : Point2d) ∈ ([⟨50, 10⟩] : List Point2d) ↔
      (⟨10, 10⟩ : Point2d) ∈ scenBPoints ⟨0, 0⟩ ∧
      ¬ ∃ j ∈ boundsToIndices ⟨256, 256⟩
          (scanBounds id const100 100 (⟨10, 10⟩ : Point2d)),
          ∃ q ∈ scenBPoints j, q ≠ (⟨10, 10⟩ : Point2d) ∧
            (id q).manhattanDist (id (⟨10, 10⟩ : Point2d))
              < const100 (⟨10, 10⟩ : Point2d) + const100 q ∧
            (const100 (⟨10, 10⟩ : Point2d) < const100 q ∨
              (const100 (⟨10, 10⟩ : Point2d) = const100 q ∧
                (id (⟨10, 10⟩ : Point2d)).lexLt (id q) = true))) :=
  claim_C3_rejection_rule id const100 const100 100 scenBPoints ⟨256, 256⟩
    (by decide) ⟨10, 10⟩

/-- C7: reducer exclusion invariant.  Any two distinct surviving reduced
points — in the same output chunk or different ones — are at Manhattan
distance at least the sum of their radii.  The hypotheses record the
guarantees of the upstream `UniformPoint` layer: every radius is bounded
by `max_radius`, every candidate lies in its own chunk's bounds, and a
position determines its point. -/
theorem claim_C7_reducer_exclusion {P : Type} [DecidableEq P]
    (pos : P → Point2d) (radius priority : P → Int) (maxRadius : Int)
    (u : Point2d → List P) (size : Point2d)
    (hsx : 0 < size.x) (hsy : 0 < size.y)
    (hrad : ∀ j, ∀ q ∈ u j, radius q ≤ maxRadius)
    (hposb : ∀ j, ∀ q ∈ u j, (chunkBounds size j).containsPoint (pos q))
    (hinj : ∀ j j' p q, p ∈ u j → q ∈ u j' → pos p = pos q → p = q)
    {i i' : Point2d} {outI outI' : List P}
    (hci : reducedCompute pos radius priority maxRadius u size i
      = some outI)
    (hci' : reducedCompute pos radius priority maxRadius u size i'
      = some outI')
    {p q : P} (hp : p ∈ outI) (hq : q ∈ outI') (hne : p ≠ q) :
    radius p + radius q ≤ (pos p).manhattanDist (pos q) := by
  by_contra hlt
  push_neg at hlt
  obtain ⟨hpu, hpk⟩ :=
    (reducedCompute_mem pos radius priority maxRadius u size hci p).mp hp
  obtain ⟨hqu, hqk⟩ :=
    (reducedCompute_mem pos radius priority maxRadius u size hci' q).mp hq
  have hposne : pos p ≠ pos q := fun he => hne (hinj i i' p q hpu hqu he)
  rcases lex_total pos priority hposne with hl | hl
  · apply hpk
    refine ⟨i', ?_, q, hqu, Ne.symm hne, ?_, hl⟩
    · refine index_mem_of_point hsx hsy (hposb i' q hqu)
        (pos_mem_scanBounds pos radius maxRadius ?_)
      have := hrad i' q hqu
      omega
    · rw [manhattanDist_comm]
      exact hlt
  · apply hqk
    refine ⟨i, ?_, p, hpu, hne, ?_, hl⟩
    · refine index_mem_of_point hsx hsy (hposb i p hpu)
        (pos_mem_scanBounds pos radius maxRadius ?_)
      rw [manhattanDist_comm]
      have := hrad i p hpu
      omega
    · omega

/-- Witness for C7: the two radius-100 survivors `(10,10)` and `(210,10)`
are at Manhattan distance exactly `200 = 100 + 100`. -/
theorem claim_C7_witness :
    (100 : Int) + 100
      ≤ (Point2d.mk 10 10).manhattanDist (Point2d.mk 210 10) := by
  have hposb : ∀ j, ∀ v ∈ exclPoints j,
      (chunkBounds ⟨256, 256⟩ j).containsPoint (id v) := by
    intro j v hv
    by_cases hj : j = ⟨0, 0⟩
    · subst hj
      simp [exclPoints] at hv
      rcases hv with rfl | rfl <;> decide
    · simp [exclPoints, hj] at hv
  exact claim_C7_reducer_exclusion id const100 const100 100 exclPoints
    ⟨256, 256⟩ (by decide) (by decide) (fun j v _ => le_refl 100) hposb
    (fun j j' a b _ _ h => h)
    (by decide :
      reducedCompute id const100 const100 100 exclPoints ⟨256, 256⟩ ⟨0, 0⟩
        = some [⟨10, 10⟩, ⟨210, 10⟩])
    (by decide :
      reducedCompute id const100 const100 100 exclPoints ⟨256, 256⟩ ⟨0, 0⟩
        = some [⟨10, 10⟩, ⟨210, 10⟩])
    (by decide) (by decide) (by decide)

/-- C8: exclusion-radius-100 scenario.  With exactly the two equal-
priority radius-100 candidates `(10,10)` and `(50,10)` in chunk `(0,0)`
and nothing else in the padded region, the reduced-points computation
keeps exactly `(50,10)` (higher `x`) and rejects `(10,10)`. -/
theorem claim_C8_radius100_scenario :
    reducedCompute id const100 const100 100 scenBPoints ⟨256, 256⟩ ⟨0, 0⟩
      = some [⟨50, 10⟩] := by
  decide

/-- For comparison (not itself a claim): the example binary's own
`ReducedLocationsChunk::compute` — which has no priorities and gates on
squared Euclidean distance with an upward-only scan — rejects BOTH points
of scenario B, since each sees the other within distance 100. -/
theorem reducedLocations_scenB_both_rejected :
    reducedLocationsCompute scenBPoints ⟨0, 0⟩ = some [] := by
  decide

/-- C10: reduction is a filter.  The output of
`ReducedUniformPoint::compute` is a subsequence of the upstream chunk's
points at the same index — survivors are upstream candidates, appear in
upstream order, nothing is added or modified — and it never holds more
points than the upstream chunk supplied. -/
theorem claim_C10_reduction_filter {P : Type} [DecidableEq P]
    (pos : P → Point2d) (radius priority : P → Int) (maxRadius : Int)
    (u : Point2d → List P) (size : Point2d) {i : Point2d} {out : List P}
    (hc : reducedCompute pos radius priority maxRadius u size i
      = some out) :
    out.Sublist (u i) ∧ out.length ≤ (u i).length := by
  have h := reducedCompute_sublist pos radius priority maxRadius u size hc
  exact ⟨h, h.length_le⟩

/-- Witness for C10 at scenario B. -/
theorem claim_C10_witness :
    ([⟨50, 10⟩] : List Point2d).Sublist (scenBPoints ⟨0, 0⟩) ∧
    ([⟨50, 10⟩] : List Point2d).length ≤ (scenBPoints ⟨0, 0⟩).length :=
  claim_C10_reduction_filter id const100 const100 100 scenBPoints
    ⟨256, 256⟩ (by decide)

/-- C4: the RNG road predicate.  When the padded 3×3 grid-range iteration
yields all nine chunks (each holding at most three points),
`RoadsChunk::compute` returns exactly the segments `(a, b)` with `a` in
the center chunk's contiguous slice of the gathered sequence and `b`
later in the sequence such that every other point `c` satisfies
`d²(a,b) < d²(a,c) ∨ d²(a,b) < d²(c,b)` (strictly — ties exclude the
segment), emitted in nested-loop order. -/
theorem claim_C4_rng_roads (g : Point2d → Option (List Point2d))
    (i : Point2d) (hlen : ∀ c ∈ windowCells g i, c.length ≤ 3)
    (hnum : (windowCells g i).length = 9) :
    computeRoads g i = some ⟨specRNGRoads (windowCells g i)⟩ := by
  rw [computeRoads_all_present hlen hnum, roadsFrom_eq_spec]

/-- Witness for C4: a right triangle in the center chunk yields the two
legs and drops the hypotenuse (the opposite corner ties or beats it). -/
theorem claim_C4_witness :
    (computeRoads triangleGrid ⟨0, 0⟩
      = some ⟨specRNGRoads (windowCells triangleGrid ⟨0, 0⟩)⟩) ∧
    computeRoads triangleGrid ⟨0, 0⟩
      = some ⟨[⟨⟨0, 0⟩, ⟨100, 0⟩⟩, ⟨⟨0, 0⟩, ⟨0, 100⟩⟩]⟩ :=
  ⟨claim_C4_rng_roads triangleGrid ⟨0, 0⟩ (by decide) (by decide),
    by decide⟩

/-- C6, counterexample: with no dependency chunk resident — the padded
grid-range iteration observes zero of the nine guaranteed chunks —
`RoadsChunk::compute` does not abort with any error: it silently returns
the payload `{ roads: [] }` computed from the partial data. -/
theorem claim_C6_counterexample :
    computeRoads (fun _ => none) ⟨0, 0⟩ = some ⟨[]⟩ := by
  decide

/-- C6, amended: `get_grid_range` silently skips non-resident chunks and
`RoadsChunk::compute` raises no missing-dependency error: whenever every
yielded chunk is within its 3-point capacity it returns a payload, and
with fewer than five yielded chunks that payload is the empty road
list. -/
theorem claim_C6_amended (g : Point2d → Option (List Point2d))
    (i : Point2d) (hlen : ∀ c ∈ windowCells g i, c.length ≤ 3) :
    (computeRoads g i).isSome = true ∧
    ((windowCells g i).length < 5 → computeRoads g i = some ⟨[]⟩) := by
  by_cases h5 : (windowCells g i).length < 5
  · rw [computeRoads_lt5 hlen h5]
    exact ⟨rfl, fun _ => rfl⟩
  · have h9 := windowCells_length_le g i
    constructor
    · unfold computeRoads
      rw [show (roadsWindow i).filterMap g = windowCells g i from rfl]
      rw [gatherGo_eq (windowCells g i) 0 [] USIZE_MAX USIZE_MAX hlen
        (by omega) (by simp)]
      rfl
    · intro h
      exact absurd h h5

/-- Witness for C6 (amended) on a grid holding only one window chunk. -/
theorem claim_C6_amended_witness :
    (computeRoads sparseGrid ⟨0, 0⟩).isSome = true ∧
    ((windowCells sparseGrid ⟨0, 0⟩).length < 5 →
      computeRoads sparseGrid ⟨0, 0⟩ = some ⟨[]⟩) :=
  claim_C6_amended sparseGrid ⟨0, 0⟩ (by decide)

/-- C9: the roads point buffer cannot overflow.  With at most nine
yielded chunks of at most three points each, the gathered points stay
within the 27-capacity buffer and the gather loop succeeds (the `extend`
never panics); and when fewer than five chunks are yielded, `start` and
`n` keep their `usize::MAX` sentinels and the returned road list is empty
instead of panicking. -/
theorem claim_C9_no_overflow (g : Point2d → Option (List Point2d))
    (i : Point2d) (hlen : ∀ c ∈ windowCells g i, c.length ≤ 3) :
    (windowCells g i).flatten.length ≤ 27 ∧
    (gatherGo 0 [] USIZE_MAX USIZE_MAX (windowCells g i)).isSome = true ∧
    ((windowCells g i).length < 5 →
      gatherGo 0 [] USIZE_MAX USIZE_MAX (windowCells g i)
        = some ((windowCells g i).flatten, USIZE_MAX, USIZE_MAX) ∧
      computeRoads g i = some ⟨[]⟩) := by
  have h9 := windowCells_length_le g i
  have hflat : (windowCells g i).flatten.length ≤ 27 := by
    have := flatten_length_le (windowCells g i) hlen
    omega
  have hgather := gatherGo_eq (windowCells g i) 0 [] USIZE_MAX USIZE_MAX
    hlen (by omega) (by simp)
  refine ⟨hflat, by rw [hgather]; rfl, ?_⟩
  intro h5
  have hcond : ¬((0 : Nat) ≤ 4 ∧ 4 - 0 < (windowCells g i).length) := by
    omega
  simp only [if_neg hcond] at hgather
  refine ⟨by simpa using hgather, computeRoads_lt5 hlen h5⟩

/-- Witness for C9 on a grid holding only one window chunk. -/
theorem claim_C9_witness :
    (windowCells sparseGrid ⟨0, 0⟩).flatten.length ≤ 27 ∧
    (gatherGo 0 [] USIZE_MAX USIZE_MAX
      (windowCells sparseGrid ⟨0, 0⟩)).isSome = true ∧
    ((windowCells sparseGrid ⟨0, 0⟩).length < 5 →
      gatherGo 0 [] USIZE_MAX USIZE_MAX (windowCells sparseGrid ⟨0, 0⟩)
        = some ((windowCells sparseGrid ⟨0, 0⟩).flatten,
            USIZE_MAX, USIZE_MAX) ∧
      computeRoads sparseGrid ⟨0, 0⟩ = some ⟨[]⟩) :=
  claim_C9_no_overflow sparseGrid ⟨0, 0⟩ (by decide)

end LayerProcGen
